import Mathlib

set_option maxRecDepth 40000

/-!
Shallow embedding of `src/src/main.rs` (hilgardvr/transaction-decoder).

Bytes are modelled as `Nat` values (each `< 256` for genuine bytes); a Rust
slice `&[u8]` is a `List Nat`.  The Rust code reads through the
`std::io::Read` implementation for `&[u8]`: a call `slice.read(&mut buf)`
copies `min (buf.len) (slice.len)` bytes into the zero-initialised buffer,
advances the slice past the copied bytes, and always returns `Ok`, so every
`.unwrap()` in the source succeeds and short reads leave the tail of the
buffer at zero.  `readBuf n s` models exactly that: it returns the filled
`n`-byte buffer together with the advanced slice.
-/

namespace TxDecode

/-- The `n`-byte buffer after `slice.read(&mut buf)`: the available bytes,
zero-filled to length `n` (Rust initialises the buffer with `[0_u8; n]` /
`vec![0_u8; n]` and `read` overwrites only the first `min n s.length`
bytes). -/
def fillBuf (n : Nat) (s : List Nat) : List Nat :=
  s.take n ++ List.replicate (n - s.length) 0

/-- Model of `transaction_bytes.read(&mut buffer).unwrap()` for a buffer of
size `n`: the filled buffer and the advanced slice. -/
def readBuf (n : Nat) (s : List Nat) : List Nat × List Nat :=
  (fillBuf n s, s.drop n)

/-- Little-endian interpretation of a byte buffer: model of
`uNN::from_le_bytes`. -/
def fromLE : List Nat → Nat
  | [] => 0
  | b :: bs => b + 256 * fromLE bs

/-- Model of the `hex` crate digit table (lowercase). -/
def hexDigit (n : Nat) : Char :=
  if n < 10 then Char.ofNat (48 + n) else Char.ofNat (87 + n)

/-- Two lowercase hex digits of one byte. -/
def hexByte (b : Nat) : List Char :=
  [hexDigit (b / 16), hexDigit (b % 16)]

/-- Model of `hex::encode`: every byte becomes two lowercase hex digits. -/
def hexEncode (s : List Nat) : String :=
  String.mk (s.map hexByte).flatten

/-- One hex digit of `hex::decode` (case-insensitive). -/
def hexDigitVal (c : Char) : Option Nat :=
  if 48 ≤ c.toNat ∧ c.toNat ≤ 57 then some (c.toNat - 48)
  else if 97 ≤ c.toNat ∧ c.toNat ≤ 102 then some (c.toNat - 87)
  else if 65 ≤ c.toNat ∧ c.toNat ≤ 70 then some (c.toNat - 55)
  else none

/-- Model of `hex::decode` on a character list: pairs of hex digits, failing
on a non-hex character or an odd-length input. -/
def hexDecodeList : List Char → Option (List Nat)
  | [] => some []
  | [_] => none
  | c1 :: c2 :: rest => do
    let hi ← hexDigitVal c1
    let lo ← hexDigitVal c2
    let tail ← hexDecodeList rest
    some ((16 * hi + lo) :: tail)

/-- Model of `hex::decode` on a string. -/
def hexDecode (s : String) : Option (List Nat) :=
  hexDecodeList s.data

/-- `struct Amount(u64)` from the source. -/
structure Amount where
  val : Nat
  deriving DecidableEq

/-- `impl BitcoinValue for Amount { fn to_btc(&self) -> f64 { self.0 as f64
/ 100_000_000.0 } }`.  The Rust division is IEEE `f64`; we model it as exact
rational division.  At every input where the true quotient is exactly
representable in `f64` — in particular the inputs the specification names,
`100000000` (quotient `1.0`) and `0` (quotient `0.0`) — the IEEE result
coincides with this rational value, since both operands convert exactly
(they are integers below `2^53`) and IEEE division rounds an exactly
representable quotient to itself. -/
def Amount.to_btc (a : Amount) : ℚ :=
  (a.val : ℚ) / 100000000

/-- `struct Input` from the source. -/
structure Input where
  txid : String
  output_index : Nat
  script_sig : String
  sequence : Nat
  deriving DecidableEq

/-- `struct Output` from the source. -/
structure Output where
  amount : Amount
  script_pubkey : String
  deriving DecidableEq

/-- `struct Transaction` from the source: it has exactly the three fields
`version`, `inputs`, `outputs`. -/
structure Transaction where
  version : Nat
  inputs : List Input
  outputs : List Output
  deriving DecidableEq

/-- `fn read_compact_size(transaction_bytes: &mut &[u8]) -> u64`.  The state
of the mutable slice is passed explicitly: the function returns the value
and the advanced slice.  The Rust `match` is on a `u8`, with arms
`0..=252`, `253`, `254` and `255`; for genuine bytes (`< 256`) the
`if`-chain below is the same case split. -/
def read_compact_size (s : List Nat) : Nat × List Nat :=
  let r1 := readBuf 1 s
  let tag := r1.1.headD 0
  if tag ≤ 252 then (tag, r1.2)
  else if tag = 253 then
    let r2 := readBuf 2 r1.2
    (fromLE r2.1, r2.2)
  else if tag = 254 then
    let r2 := readBuf 4 r1.2
    (fromLE r2.1, r2.2)
  else
    let r2 := readBuf 8 r1.2
    (fromLE r2.1, r2.2)

/-- `fn read_amout(transaction_bytes: &mut &[u8]) -> Amount` (source name
kept, typo included). -/
def read_amout (s : List Nat) : Amount × List Nat :=
  let r := readBuf 8 s
  (⟨fromLE r.1⟩, r.2)

/-- `fn read_u32(transaction_bytes: &mut &[u8]) -> u32`. -/
def read_u32 (s : List Nat) : Nat × List Nat :=
  let r := readBuf 4 s
  (fromLE r.1, r.2)

/-- `fn read_txid(transaction_bytes: &mut &[u8]) -> String`: read a 32-byte
buffer, reverse it, hex-encode it. -/
def read_txid (s : List Nat) : String × List Nat :=
  let r := readBuf 32 s
  (hexEncode r.1.reverse, r.2)

/-- `fn read_script(transaction_bytes: &mut &[u8]) -> String`: read a
compact-size length, then that many bytes, hex-encoded. -/
def read_script (s : List Nat) : String × List Nat :=
  let r1 := read_compact_size s
  let r2 := readBuf r1.1 r1.2
  (hexEncode r2.1, r2.2)

/-- The input loop of `main`: `for _ in 0..input_count` reading txid,
output index, script and sequence, pushing each `Input` in order. -/
def readInputs : Nat → List Nat → List Input × List Nat
  | 0, s => ([], s)
  | n + 1, s =>
    let rTxid := read_txid s
    let rIdx := read_u32 rTxid.2
    let rScript := read_script rIdx.2
    let rSeq := read_u32 rScript.2
    let rest := readInputs n rSeq.2
    (⟨rTxid.1, rIdx.1, rScript.1, rSeq.1⟩ :: rest.1, rest.2)

/-- The output loop of `main`: `for _ in 0..output_count` reading amount and
script, pushing each `Output` in order. -/
def readOutputs : Nat → List Nat → List Output × List Nat
  | 0, s => ([], s)
  | n + 1, s =>
    let rAmt := read_amout s
    let rSpk := read_script rAmt.2
    let rest := readOutputs n rSpk.2
    (⟨rAmt.1, rSpk.1⟩ :: rest.1, rest.2)

/-- The decoding part of `main`, as a function of the raw byte buffer:
read version, input count, the inputs, output count, the outputs, and build
the `Transaction`.  The second component is the final state of
`bytes_slice` — `main` performs no further read on it (in particular it
never reads a lock time). -/
def decodeTransaction (s : List Nat) : Transaction × List Nat :=
  let rVer := read_u32 s
  let rIc := read_compact_size rVer.2
  let rIns := readInputs rIc.1 rIc.2
  let rOc := read_compact_size rIns.2
  let rOuts := readOutputs rOc.1 rOc.2
  (⟨rVer.1, rIns.1, rOuts.1⟩, rOuts.2)

/-- The hard-coded hex string of `main`. -/
def transaction_hex : String :=
  "01000000010000000000000000000000000000000000000000000000000000000000000000ffffffff6403059d05e4b883e5bda9e7a59ee4bb99e9b1bcfabe6d6df3c53c3d9db8c2488121f2445e2665083387680896b4f9a69e0d3fd63334ac6510000000f09f909f4d696e656420627920756e6f00000000000000000000000000000000000000000000000000d0f80100015a7d7995000000001976a914c825a1ecf2a6830c4401620c3a16f1995057c2ab88acdb63af34"

/-- `let transaction_bytes = hex::decode(transaction_hex).unwrap();`. -/
def transaction_bytes : List Nat :=
  (hexDecode transaction_hex).getD []

/-- The JSON value grammar the presentation layer produces (numbers are
modelled as rationals, covering both integer fields and the `f64` amount
field). -/
inductive Json where
  | num : ℚ → Json
  | str : String → Json
  | arr : List Json → Json
  | obj : List (String × Json) → Json

/-- serde serialization of `Input` (`#[derive(Serialize)]`): the fields, in
declaration order, under their source names. -/
def jsonInput (i : Input) : Json :=
  Json.obj [("txid", Json.str i.txid), ("output_index", Json.num i.output_index),
    ("script_sig", Json.str i.script_sig), ("sequence", Json.num i.sequence)]

/-- serde serialization of `Output`: `amount` goes through
`#[serde(serialize_with = "as_btc")]`, i.e. `serialize_f64(t.to_btc())`. -/
def jsonOutput (o : Output) : Json :=
  Json.obj [("amount", Json.num o.amount.to_btc), ("script_pubkey", Json.str o.script_pubkey)]

/-- serde serialization of `Transaction`: exactly the three declared fields,
in declaration order. -/
def jsonTransactionFields (t : Transaction) : List (String × Json) :=
  [("version", Json.num t.version),
   ("inputs", Json.arr (t.inputs.map jsonInput)),
   ("outputs", Json.arr (t.outputs.map jsonOutput))]

/-! ### Helper lemmas about the byte-buffer model -/

theorem fillBuf_zero (s : List Nat) : fillBuf 0 s = [] := by
  simp [fillBuf]

theorem fillBuf_cons (n b : Nat) (t : List Nat) :
    fillBuf (n + 1) (b :: t) = b :: fillBuf n t := by
  simp [fillBuf, List.take_succ_cons, Nat.succ_sub_succ]

theorem fillBuf_length (n : Nat) (s : List Nat) : (fillBuf n s).length = n := by
  simp [fillBuf]
  omega

theorem fillBuf_of_le (n : Nat) (s : List Nat) (h : n ≤ s.length) :
    fillBuf n s = s.take n := by
  simp [fillBuf, Nat.sub_eq_zero_of_le h]

theorem fillBuf_pad (k : Nat) : ∀ (s : List Nat) (n : Nat),
    fillBuf n (s ++ List.replicate k 0) = fillBuf n s
  | [], n => by
      simp only [List.nil_append, fillBuf, List.take_nil, List.take_replicate,
        List.length_replicate, List.length_nil, Nat.sub_zero]
      rw [← List.replicate_add]
      congr 1
      omega
  | _ :: _, 0 => by
      simp [fillBuf]
  | b :: s, n + 1 => by
      rw [List.cons_append, fillBuf_cons, fillBuf_cons, fillBuf_pad k s n]

theorem drop_pad (n k : Nat) (s : List Nat) :
    (s ++ List.replicate k 0).drop n
      = s.drop n ++ List.replicate (k - (n - s.length)) 0 := by
  rw [List.drop_append_eq_append_drop, List.drop_replicate]

theorem fromLE_replicate_zero (k : Nat) : fromLE (List.replicate k 0) = 0 := by
  induction k with
  | zero => rfl
  | succ k ih => simp [List.replicate_succ, fromLE, ih]

theorem fromLE_append_zeros (s : List Nat) (k : Nat) :
    fromLE (s ++ List.replicate k 0) = fromLE s := by
  induction s with
  | nil => simp [fromLE, fromLE_replicate_zero]
  | cons b t ih => simp [fromLE, ih]

theorem mem_fillBuf {b n : Nat} {s : List Nat} (h : b ∈ fillBuf n s) : b ∈ s ∨ b = 0 := by
  rcases List.mem_append.1 h with h1 | h2
  · exact Or.inl (List.mem_of_mem_take h1)
  · exact Or.inr (List.mem_replicate.1 h2).2

theorem fromLE_lt {l : List Nat} (h : ∀ b ∈ l, b < 256) :
    fromLE l < 256 ^ l.length := by
  induction l with
  | nil => simp [fromLE]
  | cons b t ih =>
      have hb : b < 256 := h b (by simp)
      have ht : fromLE t < 256 ^ t.length := ih (fun x hx => h x (by simp [hx]))
      rw [List.length_cons, pow_succ, Nat.mul_comm]
      calc b + 256 * fromLE t < 256 * (fromLE t + 1) := by omega
        _ ≤ 256 * 256 ^ t.length := Nat.mul_le_mul_left 256 ht
        _ = 256 * 256 ^ t.length := rfl

/-! ### Unfolding equations for the readers on explicit byte shapes -/

theorem read_compact_size_single (b : Nat) (rest : List Nat) (hb : b ≤ 252) :
    read_compact_size (b :: rest) = (b, rest) := by
  simp [read_compact_size, readBuf, fillBuf_cons, fillBuf_zero, hb]

theorem read_compact_size_253 (lo hi : Nat) (rest : List Nat) :
    read_compact_size (253 :: lo :: hi :: rest) = (lo + 256 * hi, rest) := by
  simp [read_compact_size, readBuf, fillBuf_cons, fillBuf_zero, fromLE]

theorem read_compact_size_254 (b0 b1 b2 b3 : Nat) (rest : List Nat) :
    read_compact_size (254 :: b0 :: b1 :: b2 :: b3 :: rest)
      = (fromLE [b0, b1, b2, b3], rest) := by
  simp [read_compact_size, readBuf, fillBuf_cons, fillBuf_zero]

theorem read_compact_size_255 (b0 b1 b2 b3 b4 b5 b6 b7 : Nat) (rest : List Nat) :
    read_compact_size (255 :: b0 :: b1 :: b2 :: b3 :: b4 :: b5 :: b6 :: b7 :: rest)
      = (fromLE [b0, b1, b2, b3, b4, b5, b6, b7], rest) := by
  simp [read_compact_size, readBuf, fillBuf_cons, fillBuf_zero]

/-- Every byte of the slice left behind by `read_compact_size` comes from
the original slice. -/
theorem read_compact_size_snd_subset {b : Nat} {s : List Nat}
    (h : b ∈ (read_compact_size s).2) : b ∈ s := by
  unfold read_compact_size readBuf at h
  simp only at h
  split_ifs at h <;>
    first
      | exact List.mem_of_mem_drop h
      | exact List.mem_of_mem_drop (List.mem_of_mem_drop h)

/-! ### Zero-padding invariance of the readers -/

theorem read_compact_size_pad (s : List Nat) (k : Nat) :
    (read_compact_size (s ++ List.replicate k 0)).1 = (read_compact_size s).1 := by
  unfold read_compact_size readBuf
  simp only [fillBuf_pad, drop_pad]
  split_ifs <;> simp [fillBuf_pad]

theorem read_u32_pad (s : List Nat) (k : Nat) :
    (read_u32 (s ++ List.replicate k 0)).1 = (read_u32 s).1 := by
  simp [read_u32, readBuf, fillBuf_pad]

theorem read_amout_pad (s : List Nat) (k : Nat) :
    (read_amout (s ++ List.replicate k 0)).1 = (read_amout s).1 := by
  simp [read_amout, readBuf, fillBuf_pad]

theorem read_txid_pad (s : List Nat) (k : Nat) :
    (read_txid (s ++ List.replicate k 0)).1 = (read_txid s).1 := by
  simp [read_txid, readBuf, fillBuf_pad]

/-! ### The decode loops -/

theorem readInputs_length (n : Nat) (s : List Nat) :
    (readInputs n s).1.length = n := by
  induction n generalizing s with
  | zero => rfl
  | succ n ih => simp [readInputs, ih]

theorem readOutputs_length (n : Nat) (s : List Nat) :
    (readOutputs n s).1.length = n := by
  induction n generalizing s with
  | zero => rfl
  | succ n ih => simp [readOutputs, ih]

theorem readInputs_add (m n : Nat) (s : List Nat) :
    readInputs (m + n) s
      = ((readInputs m s).1 ++ (readInputs n (readInputs m s).2).1,
         (readInputs n (readInputs m s).2).2) := by
  induction m generalizing s with
  | zero => simp [readInputs]
  | succ m ih => rw [Nat.succ_add]; simp [readInputs, ih]

theorem readOutputs_add (m n : Nat) (s : List Nat) :
    readOutputs (m + n) s
      = ((readOutputs m s).1 ++ (readOutputs n (readOutputs m s).2).1,
         (readOutputs n (readOutputs m s).2).2) := by
  induction m generalizing s with
  | zero => simp [readOutputs]
  | succ m ih => rw [Nat.succ_add]; simp [readOutputs, ih]

/-! ### Hex characters -/

theorem hexDigit_mem (m : Nat) (h : m < 16) :
    hexDigit m ∈ ("0123456789abcdef").data := by
  interval_cases m <;> decide

theorem hexEncode_chars {s : List Nat} (h : ∀ b ∈ s, b < 256) :
    ∀ c ∈ (hexEncode s).data, c ∈ ("0123456789abcdef").data := by
  intro c hc
  have hc' : c ∈ (s.map hexByte).flatten := hc
  rcases List.mem_flatten.1 hc' with ⟨l, hl, hcl⟩
  rcases List.mem_map.1 hl with ⟨b, hb, rfl⟩
  have hb256 : b < 256 := h b hb
  simp only [hexByte, List.mem_cons, List.mem_singleton, List.not_mem_nil, or_false]
    at hcl
  rcases hcl with rfl | rfl
  · exact hexDigit_mem _ (by omega)
  · exact hexDigit_mem _ (by omega)

theorem fromLE_fillBuf_lt (n : Nat) (s : List Nat) (hs : ∀ b ∈ s, b < 256) :
    fromLE (fillBuf n s) < 256 ^ n := by
  have h : ∀ b ∈ fillBuf n s, b < 256 := by
    intro b hb
    rcases mem_fillBuf hb with h | rfl
    · exact hs b h
    · omega
  have hlt := fromLE_lt h
  rwa [fillBuf_length] at hlt

/-! ### Claim theorems -/

/-- C1: the claim states that every read on a truncated buffer fails with an
InsufficientData/UnexpectedEof error, never zero-fills, and never returns a
Transaction.  The code does the opposite: `Read` on a slice always succeeds,
copying the available bytes and leaving the rest of the zero-initialised
buffer at zero.  Evaluation at the failing input `[0x01]` (one byte where
`read_u32` needs four): `read_u32` silently zero-fills to `[1,0,0,0]` and
returns `1`, and the whole decode returns a complete `Transaction` with
`version = 1` and empty input/output lists instead of an error. -/
theorem truncated_decode_zero_fills :
    read_u32 [1] = (1, []) ∧
    decodeTransaction [1] = (⟨1, [], []⟩, []) := by
  decide

/-- C2: the claim states the decoder computes `Hash(Hash(raw_bytes))`,
stores it in the `Transaction` and displays it reversed.  The code computes
no hash at all: the `Transaction` struct has only `version`, `inputs` and
`outputs`, and the serialized output of the hard-coded decode contains no
`transaction_id` field. -/
theorem no_transaction_id_in_output :
    "transaction_id" ∉
      (jsonTransactionFields (decodeTransaction transaction_bytes).1).map Prod.fst := by
  decide

/-- C3: the claim states that after the outputs the decoder reads a
little-endian 32-bit lock time and that the output document has exactly the
fields `version`, `inputs`, `outputs`, `lock_time`, `transaction_id`.  The
code never reads the lock time: decoding the hard-coded transaction leaves
exactly its four lock-time bytes `db63af34` unconsumed, and the serialized
document has exactly the fields `version`, `inputs`, `outputs`. -/
theorem lock_time_never_read :
    (decodeTransaction transaction_bytes).2 = [219, 99, 175, 52] ∧
    (jsonTransactionFields (decodeTransaction transaction_bytes).1).map Prod.fst
      = ["version", "inputs", "outputs"] := by
  exact ⟨by decide, rfl⟩

/-- C4: compact-size decoding, given enough bytes for the selected width:
a first byte `0..=252` is its own value; `253` is followed by a 2-byte
little-endian value (also when that value is ≤ 252 — non-canonical
encodings accepted); `254` by a 4-byte and `255` by an 8-byte little-endian
value; and on genuine bytes the result is always below `2 ^ 64`. -/
theorem read_compact_size_spec :
    (∀ (b : Nat) (rest : List Nat), b ≤ 252 → read_compact_size (b :: rest) = (b, rest)) ∧
    (∀ (lo hi : Nat) (rest : List Nat),
      read_compact_size (253 :: lo :: hi :: rest) = (lo + 256 * hi, rest)) ∧
    (∀ (b0 b1 b2 b3 : Nat) (rest : List Nat),
      read_compact_size (254 :: b0 :: b1 :: b2 :: b3 :: rest)
        = (fromLE [b0, b1, b2, b3], rest)) ∧
    (∀ (b0 b1 b2 b3 b4 b5 b6 b7 : Nat) (rest : List Nat),
      read_compact_size (255 :: b0 :: b1 :: b2 :: b3 :: b4 :: b5 :: b6 :: b7 :: rest)
        = (fromLE [b0, b1, b2, b3, b4, b5, b6, b7], rest)) ∧
    (∀ s : List Nat, (∀ b ∈ s, b < 256) → (read_compact_size s).1 < 2 ^ 64) := by
  refine ⟨read_compact_size_single, read_compact_size_253, read_compact_size_254,
    read_compact_size_255, ?_⟩
  intro s hs
  have hdrop : ∀ b ∈ s.drop 1, b < 256 := fun b hb => hs b (List.mem_of_mem_drop hb)
  unfold read_compact_size readBuf
  simp only
  split_ifs with h1 h2 h3
  · exact lt_of_le_of_lt h1 (by norm_num)
  · exact lt_of_lt_of_le (fromLE_fillBuf_lt 2 _ hdrop) (by norm_num)
  · exact lt_of_lt_of_le (fromLE_fillBuf_lt 4 _ hdrop) (by norm_num)
  · exact lt_of_lt_of_le (fromLE_fillBuf_lt 8 _ hdrop) (by norm_num)

theorem read_compact_size_spec_witness :
    read_compact_size [7] = (7, []) ∧
    read_compact_size [253, 1, 0] = (1, []) ∧
    read_compact_size [254, 0, 0, 1, 0] = (65536, []) ∧
    read_compact_size [255, 1, 0, 0, 0, 0, 0, 0, 1] = (72057594037927937, []) ∧
    (read_compact_size [255, 255, 255, 255, 255, 255, 255, 255, 255]).1 < 2 ^ 64 := by
  obtain ⟨h1, h2, h3, h4, h5⟩ := read_compact_size_spec
  refine ⟨?_, ?_, ?_, ?_, h5 _ (by decide)⟩
  · simpa using h1 7 [] (by norm_num)
  · simpa using h2 1 0 []
  · have h := h3 0 0 1 0 []
    rw [h]
    decide
  · have h := h4 1 0 0 0 0 0 0 1 []
    rw [h]
    decide

/-- C5: with at least 32 bytes remaining, `read_txid` consumes exactly the
next 32 bytes, reverses them, and returns them as a lowercase hex string
(every character of the result is one of `0123456789abcdef`). -/
theorem read_txid_spec (s : List Nat) (hlen : 32 ≤ s.length)
    (hbytes : ∀ b ∈ s, b < 256) :
    read_txid s = (hexEncode ((s.take 32).reverse), s.drop 32) ∧
    ∀ c ∈ (read_txid s).1.data, c ∈ ("0123456789abcdef").data := by
  have hfill : fillBuf 32 s = s.take 32 := fillBuf_of_le 32 s hlen
  constructor
  · simp [read_txid, readBuf, hfill]
  · intro c hc
    have heq : (read_txid s).1 = hexEncode ((fillBuf 32 s).reverse) := rfl
    rw [heq] at hc
    refine hexEncode_chars ?_ c hc
    intro b hb
    rcases mem_fillBuf (List.mem_reverse.1 hb) with h | rfl
    · exact hbytes b h
    · omega

theorem read_txid_spec_witness :
    read_txid (List.replicate 32 0 ++ [7])
      = ("0000000000000000000000000000000000000000000000000000000000000000", [7]) := by
  have h := (read_txid_spec (List.replicate 32 0 ++ [7]) (by decide) (by decide)).1
  rw [h]
  decide

/-- C6: with a compact-size length prefix followed by at least that many
bytes, `read_script` reads the length, then exactly that many bytes, and
returns them hex-encoded in lowercase, uninterpreted. -/
theorem read_script_spec (s : List Nat)
    (hlen : (read_compact_size s).1 ≤ (read_compact_size s).2.length)
    (hbytes : ∀ b ∈ s, b < 256) :
    read_script s
      = (hexEncode ((read_compact_size s).2.take (read_compact_size s).1),
         (read_compact_size s).2.drop (read_compact_size s).1) ∧
    ∀ c ∈ (read_script s).1.data, c ∈ ("0123456789abcdef").data := by
  have hfill : fillBuf (read_compact_size s).1 (read_compact_size s).2
      = (read_compact_size s).2.take (read_compact_size s).1 :=
    fillBuf_of_le _ _ hlen
  constructor
  · simp [read_script, readBuf, hfill]
  · intro c hc
    have heq : (read_script s).1
        = hexEncode (fillBuf (read_compact_size s).1 (read_compact_size s).2) := rfl
    rw [heq] at hc
    refine hexEncode_chars ?_ c hc
    intro b hb
    rcases mem_fillBuf hb with h | rfl
    · exact hbytes b (read_compact_size_snd_subset h)
    · omega

theorem read_script_spec_witness :
    read_script [2, 171, 205, 9] = ("abcd", [9]) := by
  have h := (read_script_spec [2, 171, 205, 9] (by decide) (by decide)).1
  rw [h]
  decide

/-- C7: decoding is a pure function of the byte buffer: two decodes of equal
buffers give structurally equal `Transaction` values and (in particular)
identical identifier strings in the inputs.  The embedding is a total
function with no state, matching the source, where decoding reads only the
materialized byte slice. -/
theorem decodeTransaction_deterministic (s t : List Nat) (h : s = t) :
    decodeTransaction s = decodeTransaction t ∧
    (decodeTransaction s).1.inputs.map Input.txid
      = (decodeTransaction t).1.inputs.map Input.txid := by
  subst h
  exact ⟨rfl, rfl⟩

theorem decodeTransaction_deterministic_witness :
    decodeTransaction transaction_bytes = decodeTransaction transaction_bytes ∧
    (decodeTransaction transaction_bytes).1.inputs.map Input.txid
      = (decodeTransaction transaction_bytes).1.inputs.map Input.txid :=
  decodeTransaction_deterministic transaction_bytes transaction_bytes rfl

/-- C8: the display conversion divides the integer amount by `100,000,000`
(exactly: `to_btc a * 100000000 = a.val`); the amount `100000000` renders
as exactly `1` and `0` renders as `0`; and the value `read_amout` stores is
the little-endian integer read from the buffer, never a floating value. -/
theorem amount_display_spec :
    Amount.to_btc ⟨100000000⟩ = 1 ∧
    Amount.to_btc ⟨0⟩ = 0 ∧
    (∀ a : Amount, a.to_btc * 100000000 = (a.val : ℚ)) ∧
    (∀ s : List Nat, (read_amout s).1 = ⟨fromLE (fillBuf 8 s)⟩) := by
  refine ⟨?_, ?_, ?_, fun s => rfl⟩
  · norm_num [Amount.to_btc]
  · norm_num [Amount.to_btc]
  · intro a
    rw [Amount.to_btc]
    field_simp

/-- C9: every reader is total on all slices — the embedding of each reader
is a total function, truncated input included.  Reading copies only the
available bytes and leaves the rest of the zero-initialised buffer at zero,
so missing bytes decode as if they were zero: appending zero bytes to any
buffer never changes any reader's value, and `read_compact_size` of the
empty slice returns `0`. -/
theorem readers_total_zero_fill :
    read_compact_size [] = (0, []) ∧
    (∀ (s : List Nat) (k : Nat),
      (read_compact_size (s ++ List.replicate k 0)).1 = (read_compact_size s).1) ∧
    (∀ (s : List Nat) (k : Nat),
      (read_u32 (s ++ List.replicate k 0)).1 = (read_u32 s).1) ∧
    (∀ (s : List Nat) (k : Nat),
      (read_amout (s ++ List.replicate k 0)).1 = (read_amout s).1) ∧
    (∀ (s : List Nat) (k : Nat),
      (read_txid (s ++ List.replicate k 0)).1 = (read_txid s).1) :=
  ⟨by decide, read_compact_size_pad, read_u32_pad, read_amout_pad, read_txid_pad⟩

/-- C10: the decoded `Transaction` contains exactly as many inputs as the
decoded input count and as many outputs as the decoded output count, and
both loops preserve buffer order: reading `m + n` entries yields the first
`m` entries followed by the next `n` entries parsed from the remaining
buffer. -/
theorem decode_counts_and_order :
    (∀ (n : Nat) (s : List Nat), (readInputs n s).1.length = n) ∧
    (∀ (n : Nat) (s : List Nat), (readOutputs n s).1.length = n) ∧
    (∀ (m n : Nat) (s : List Nat),
      (readInputs (m + n) s).1
        = (readInputs m s).1 ++ (readInputs n (readInputs m s).2).1) ∧
    (∀ (m n : Nat) (s : List Nat),
      (readOutputs (m + n) s).1
        = (readOutputs m s).1 ++ (readOutputs n (readOutputs m s).2).1) ∧
    (∀ s : List Nat,
      (decodeTransaction s).1.inputs.length = (read_compact_size (read_u32 s).2).1) ∧
    (∀ s : List Nat,
      (decodeTransaction s).1.outputs.length
        = (read_compact_size
            (readInputs (read_compact_size (read_u32 s).2).1
              (read_compact_size (read_u32 s).2).2).2).1) := by
  refine ⟨readInputs_length, readOutputs_length,
    fun m n s => by rw [readInputs_add], fun m n s => by rw [readOutputs_add],
    fun s => readInputs_length _ _, fun s => readOutputs_length _ _⟩

end TxDecode
